import Mathlib

/-!
Verification of the commit-aware repository cache of this code base.

The cache utility module (commit-based caching for a Gitea-backed file browser)
and the directory-loading routine of the file view are shallowly embedded below:
browser state (in-memory maps and localStorage) is an explicit `Store` value,
remote HTTP endpoints become an `Api` record of pure response functions, wall
clock reads (`Date.now()`) become an explicit `now : Nat` millisecond argument,
and thrown/caught exceptions become explicit `Option`/sum cases.  String
operations follow the JavaScript ones (`includes` is contiguous-substring,
`startsWith` is prefix, `toLowerCase` maps `Char.toLower`); `localeCompare` is
modelled as code-point lexicographic comparison.  Fields of the JavaScript
objects that no theorem depends on and that are built from constants
(`type`, `repository`, `download_url`, `created_at`, `updated_at`) are omitted
from the records.
-/

namespace Drive

/-- JS `String.prototype.includes`: contiguous-substring test. -/
def strIncludes (s pat : String) : Bool := decide (pat.data <:+: s.data)

/-- JS `String.prototype.startsWith`. -/
def strStartsWith (s pat : String) : Bool := decide (pat.data <+: s.data)

/-- JS `String.prototype.toLowerCase`, modelled on the character list (ASCII
case mapping via `Char.toLower`). -/
def strToLower (s : String) : String := String.mk (s.data.map Char.toLower)

/-- JS `substring(n)` tail, modelled on the character list. -/
def strDrop (s : String) (n : Nat) : String := String.mk (s.data.drop n)

/-- A whitespace character for the purposes of JS `trim`. -/
def isJsSpace (c : Char) : Bool := c = ' ' || c = '\t' || c = '\n' || c = '\r'

/-- JS `String.prototype.trim`, modelled on the character list. -/
def jsTrim (s : String) : String :=
  String.mk (((s.data.dropWhile isJsSpace).reverse.dropWhile isJsSpace).reverse)

/-- JS `String.prototype.split(sep)` on the character list (splits at every
occurrence, keeping empty segments; the empty string yields one empty
segment). -/
def splitChar (sep : Char) : List Char → List (List Char)
  | [] => [[]]
  | c :: cs =>
    if c = sep then [] :: splitChar sep cs
    else
      match splitChar sep cs with
      | s :: ss => (c :: s) :: ss
      | [] => [[c]]

/-- JS `s.split(sep)` as strings. -/
def strSplit (s : String) (sep : Char) : List String :=
  (splitChar sep s.data).map String.mk

/-- Last `/`-separated segment, JS `s.split('/').pop()`. -/
def lastSegment (s : String) : String := (strSplit s '/').getLastD ""

/-! ### Decimal printing of `Nat`

`Date.now()`-based placeholder tokens embed `Nat.repr` of the clock value; the
lemmas below establish that `Nat.repr` is injective, via a digit-value decode.
-/

/-- Numeric value of a decimal digit character. -/
def digitVal (c : Char) : Nat := c.toNat - 48

/-- Decode a digit string back to the number it denotes. -/
def reprValue (l : List Char) : Nat := l.foldl (fun a c => 10 * a + digitVal c) 0

/-- Reference decimal digits of `n`, most significant first. -/
def repChars (n : Nat) : List Char :=
  if n < 10 then [Nat.digitChar n]
  else repChars (n / 10) ++ [Nat.digitChar (n % 10)]
termination_by n
decreasing_by exact Nat.div_lt_self (by omega) (by omega)

/-! ### Constants and cache keys (source: repository cache module) -/

/-- `CACHE_VERSION` constant of the cache module. -/
def CACHE_VERSION : String := "1.0"

/-- `MAX_CACHE_AGE`: 24 hours in milliseconds. -/
def MAX_CACHE_AGE : Nat := 24 * 60 * 60 * 1000

/-- `CACHE_PREFIX` string constant. -/
def cachePre : String := "gitea_repo_cache_"

/-- Strip leading and trailing `/` characters (the `replace(/^\/+|\/+$/g, '')`
normalisation of `getCacheKey`). -/
def stripSlashes (p : String) : String :=
  String.mk (((p.data.dropWhile (· = '/')).reverse.dropWhile (· = '/')).reverse)

/-- `getCacheKey(repoName, path)`. -/
def getCacheKey (repoName path : String) : String :=
  let normalizedPath := stripSlashes path
  cachePre ++ repoName ++ "_" ++ (if normalizedPath = "" then "root" else normalizedPath)

/-- `getCommitCacheKey(repoName)`. -/
def getCommitCacheKey (repoName : String) : String := cachePre ++ "commit_" ++ repoName

/-! ### Directory entries and cache records -/

/-- A file row of a cached listing (constant fields of the JS object omitted). -/
structure FileEntry where
  id : String
  name : String
  size : Nat
  path : String
  sha : String
  deriving DecidableEq, Repr

/-- A folder row of a cached listing. -/
structure FolderEntry where
  id : String
  name : String
  path : String
  deriving DecidableEq, Repr

/-- A per-path cache record as stored by `setCachedData`. -/
structure CacheEntry where
  version : String
  timestamp : Nat
  lastFetched : Nat
  commitSha : String
  path : String
  files : List FileEntry
  folders : List FolderEntry
  repoName : String
  deriving DecidableEq, Repr

/-- A per-repository commit record (`{version, timestamp, commitSha}`). -/
structure CommitEntry where
  version : String
  timestamp : Nat
  commitSha : String
  deriving DecidableEq, Repr

/-- The two-tier store: the volatile `memoryCache`/`commitCache` maps and the
durable `localStorage`, the latter split by key family.  A durable value of
`none` models an unparsable (corrupt) JSON string: reading it makes
`JSON.parse` throw inside the accessor's `try` block. -/
structure Store where
  memoryCache : List (String × CacheEntry)
  commitCache : List (String × CommitEntry)
  lsData : List (String × Option CacheEntry)
  lsCommit : List (String × Option CommitEntry)
  deriving DecidableEq, Repr

/-- First-match association lookup (JS `Map.get` / `localStorage.getItem`). -/
def lookupKV {α : Type} (l : List (String × α)) (k : String) : Option α :=
  match l.find? (fun p => p.1 = k) with
  | some p => some p.2
  | none => none

/-- Key removal (JS `Map.delete` / `localStorage.removeItem`). -/
def removeKV {α : Type} (l : List (String × α)) (k : String) : List (String × α) :=
  l.filter (fun p => ¬ p.1 = k)

/-- Key replacement (JS `Map.set` / `localStorage.setItem`). -/
def insertKV {α : Type} (l : List (String × α)) (k : String) (v : α) : List (String × α) :=
  removeKV l k ++ [(k, v)]

/-- The store after evicting a listing key from both tiers. -/
def evictData (st : Store) (cacheKey : String) : Store :=
  { st with memoryCache := removeKV st.memoryCache cacheKey,
            lsData := removeKV st.lsData cacheKey }

/-- The store after evicting a repository's commit record from both tiers. -/
def evictCommit (st : Store) (repoName : String) : Store :=
  { st with commitCache := removeKV st.commitCache repoName,
            lsCommit := removeKV st.lsCommit (getCommitCacheKey repoName) }

/-! ### Cache entry accessors (source: `getCachedData`, `setCachedData`,
`getCachedCommitSha`) -/

/-- `getCachedData(repoName, path)`: volatile tier first (valid iff version
matches and age is strictly below `MAX_CACHE_AGE`, otherwise the volatile copy
is deleted), then the durable tier (version mismatch or age strictly above
`MAX_CACHE_AGE` deletes the durable copy; a valid durable hit is promoted to
the volatile tier).  A corrupt durable value throws in `JSON.parse`; the
surrounding `catch` returns `null`.  The durable fallback section of the
source function is split out as `getCachedDataDurable`. -/
def getCachedDataDurable (st1 : Store) (now : Nat) (cacheKey : String) :
    Option CacheEntry × Store :=
  match lookupKV st1.lsData cacheKey with
  | none => (none, st1)
  | some none => (none, st1)
  | some (some parsedCache) =>
    if parsedCache.version ≠ CACHE_VERSION then
      (none, { st1 with lsData := removeKV st1.lsData cacheKey })
    else if now - parsedCache.timestamp > MAX_CACHE_AGE then
      (none, { st1 with lsData := removeKV st1.lsData cacheKey })
    else
      (some parsedCache,
       { st1 with memoryCache := insertKV st1.memoryCache cacheKey parsedCache })

def getCachedData (st : Store) (now : Nat) (repoName path : String) :
    Option CacheEntry × Store :=
  let cacheKey := getCacheKey repoName path
  match lookupKV st.memoryCache cacheKey with
  | some memoryCached =>
    if memoryCached.version = CACHE_VERSION ∧ now - memoryCached.timestamp < MAX_CACHE_AGE then
      (some memoryCached, st)
    else
      getCachedDataDurable { st with memoryCache := removeKV st.memoryCache cacheKey } now cacheKey
  | none => getCachedDataDurable st now cacheKey

/-- `setCachedData(repoName, path, commitSha, files, folders)`.  The volatile
write is synchronous; the durable writes (listing record plus commit record,
which also updates the volatile commit map) run in a deferred `try` block whose
failure — modelled by `durableThrows` — is swallowed, leaving only the volatile
listing write. -/
def setCachedData (st : Store) (now : Nat) (repoName path commitSha : String)
    (files : List FileEntry) (folders : List FolderEntry) (durableThrows : Bool) : Store :=
  let cacheKey := getCacheKey repoName path
  let cacheData : CacheEntry :=
    { version := CACHE_VERSION, timestamp := now, lastFetched := now,
      commitSha := commitSha, path := path, files := files, folders := folders,
      repoName := repoName }
  let st1 := { st with memoryCache := insertKV st.memoryCache cacheKey cacheData }
  if durableThrows then st1
  else
    let commitCacheKey := getCommitCacheKey repoName
    let commitData : CommitEntry :=
      { version := CACHE_VERSION, timestamp := now, commitSha := commitSha }
    { st1 with
      lsData := insertKV st1.lsData cacheKey (some cacheData),
      lsCommit := insertKV st1.lsCommit commitCacheKey (some commitData),
      commitCache := insertKV st1.commitCache repoName commitData }

/-- `getCachedCommitSha(repoName)`: volatile commit map first (version and
strict age check, invalid copies deleted); on a miss the durable commit record
is read, checked for age only (the durable fallback of the source performs no
version comparison), deleted when expired, and promoted on success.  The
durable fallback section is split out as `getCachedCommitShaDurable`. -/
def getCachedCommitShaDurable (st1 : Store) (now : Nat) (repoName : String) :
    Option String × Store :=
  let commitCacheKey := getCommitCacheKey repoName
  match lookupKV st1.lsCommit commitCacheKey with
  | none => (none, st1)
  | some none => (none, st1)
  | some (some parsedCache) =>
    if now - parsedCache.timestamp > MAX_CACHE_AGE then
      (none, { st1 with lsCommit := removeKV st1.lsCommit commitCacheKey })
    else
      (some parsedCache.commitSha,
       { st1 with commitCache := insertKV st1.commitCache repoName parsedCache })

def getCachedCommitSha (st : Store) (now : Nat) (repoName : String) :
    Option String × Store :=
  match lookupKV st.commitCache repoName with
  | some memoryCached =>
    if memoryCached.version = CACHE_VERSION ∧ now - memoryCached.timestamp < MAX_CACHE_AGE then
      (some memoryCached.commitSha, st)
    else
      getCachedCommitShaDurable { st with commitCache := removeKV st.commitCache repoName } now repoName
  | none => getCachedCommitShaDurable st now repoName

/-! ### Remote API environment

Each Gitea endpoint used by the module becomes a pure response field; `none`
(or `.err`) covers both a non-`ok` HTTP response and a thrown network error.
Host, token and the fixed organisation segment of every URL are absorbed into
the environment. -/

/-- `GET /repos/{repo}` response body (JS truthiness of `default_branch` is
emptiness of the string). -/
structure RepoInfo where
  default_branch : String
  empty : Bool
  deriving DecidableEq, Repr

/-- An item of a `contents/{path}` listing response. -/
structure RemoteItem where
  name : String
  itemType : String
  size : Nat
  path : String
  sha : String
  deriving DecidableEq, Repr

/-- Outcome of a `contents/{path}` request: `ok` body, a 404, or any other
failure. -/
inductive ContentsResult where
  | ok (items : List RemoteItem)
  | notFound
  | err
  deriving DecidableEq, Repr

/-- One changed file of a compare response. -/
structure Change where
  filename : String
  status : String
  sha : String
  additions : Nat
  deletions : Nat
  deriving DecidableEq, Repr

/-- A compare response (`files`, `commits`). -/
structure CompareData where
  files : List Change
  commits : List String
  deriving DecidableEq, Repr

/-- An entry of the recursive `git/trees` response. -/
structure TreeItem where
  name : String
  itemType : String
  path : String
  deriving DecidableEq, Repr

/-- The remote content host. `branchInfo b` is the commit id delivered by
`branches/{b}` (already `none` when the response is not ok or carries no
`commit.id`); `commitsList b` is the first sha of `commits?limit=1&sha={b}`
(`none` when not ok or the list is empty). -/
structure Api where
  branchInfo : String → Option String
  commitsList : String → Option String
  repoInfo : Option RepoInfo
  contents : String → ContentsResult
  compare : String → String → Option CompareData
  tree : Option (List TreeItem)

/-- Whether a `contents` probe counts as `response.ok`. -/
def ContentsResult.isOk : ContentsResult → Bool
  | .ok _ => true
  | _ => false

/-! ### Commit Oracle (source: `getLatestCommitSha`) -/

/-- `getLatestCommitSha(giteaHost, giteaToken, repoName, branch = 'main')`.
The guard rejects a missing/empty repository name before any remote call; then
the source tries, in order: branch endpoint, commits endpoint, repository info
(on a truthy `default_branch` it retries branch and commits endpoints against
that branch; on `empty` it synthesises `empty-repo-<now>`), and finally a root
`contents` probe that synthesises `contents-based-<now>`.  The probe (Method 4
of the source) is split out as `contentsProbeStep`. -/
def contentsProbeStep (api : Api) (now : Nat) : Option String :=
  if (api.contents "").isOk then some ("contents-based-" ++ Nat.repr now) else none

def getLatestCommitSha (api : Api) (repoName : String) (now : Nat)
    (branch : String := "main") : Option String :=
  if repoName = "" then none else
  match api.branchInfo branch with
  | some id => some id
  | none =>
  match api.commitsList branch with
  | some sha => some sha
  | none =>
  match api.repoInfo with
  | none => contentsProbeStep api now
  | some repoData =>
    match (if repoData.default_branch ≠ "" then
        match api.branchInfo repoData.default_branch with
        | some id => some id
        | none => api.commitsList repoData.default_branch
      else none) with
    | some sha => some sha
    | none =>
      if repoData.empty then some ("empty-repo-" ++ Nat.repr now)
      else contentsProbeStep api now

/-- Spec-style strategy 1: branch-info endpoint. -/
def resolveStep1 (api : Api) (branch : String) : Option String := api.branchInfo branch

/-- Spec-style strategy 2: history endpoint limited to one result. -/
def resolveStep2 (api : Api) (branch : String) : Option String := api.commitsList branch

/-- Spec-style strategy 3: repository info, retrying strategies 1-2 against the
reported default branch. -/
def resolveStep3 (api : Api) : Option String :=
  match api.repoInfo with
  | some info =>
    if info.default_branch ≠ "" then
      match api.branchInfo info.default_branch with
      | some id => some id
      | none => api.commitsList info.default_branch
    else none
  | none => none

/-- Spec-style strategy 4: `empty-repo-<now>` placeholder for a repository
reporting zero commits. -/
def resolveStep4 (api : Api) (now : Nat) : Option String :=
  match api.repoInfo with
  | some info => if info.empty then some ("empty-repo-" ++ Nat.repr now) else none
  | none => none

/-- Spec-style strategy 5: `contents-based-<now>` placeholder when a root
listing probe answers successfully. -/
def resolveStep5 (api : Api) (now : Nat) : Option String :=
  if (api.contents "").isOk then some ("contents-based-" ++ Nat.repr now) else none

/-- The spec's resolver: the five strategies in strict order, each later one
attempted only when every earlier one produced nothing. -/
def resolveVersionSpec (api : Api) (branch : String) (now : Nat) : Option String :=
  match resolveStep1 api branch with
  | some s => some s
  | none =>
  match resolveStep2 api branch with
  | some s => some s
  | none =>
  match resolveStep3 api with
  | some s => some s
  | none =>
  match resolveStep4 api now with
  | some s => some s
  | none => resolveStep5 api now

/-! ### Diff computation and application (source: `getCommitChanges`,
`applyChangesToCache`) -/

/-- The `refresh-needed` sentinel returned by `getCommitChanges` (the JS marker
object carries only `status`; the remaining fields are defaulted here). -/
def refreshNeededResult : CompareData :=
  { files := [{ filename := "", status := "refresh-needed", sha := "",
                additions := 0, deletions := 0 }],
    commits := [] }

/-- `getCommitChanges(giteaHost, giteaToken, repoName, fromCommit, toCommit)`:
placeholder tokens on either side short-circuit to the sentinel; a failed or
throwing compare call also yields the sentinel. -/
def getCommitChanges (api : Api) (fromCommit toCommit : String) : CompareData :=
  if strStartsWith fromCommit "empty-repo-" || strStartsWith fromCommit "contents-based-" ||
     strStartsWith toCommit "empty-repo-" || strStartsWith toCommit "contents-based-" then
    refreshNeededResult
  else
    match api.compare fromCommit toCommit with
    | none => refreshNeededResult
    | some compareData => { files := compareData.files, commits := compareData.commits }

/-- Remove the first file whose `name` matches (JS `findIndex` + `splice`). -/
def removeFirstFile (files : List FileEntry) (fileName : String) : List FileEntry :=
  match files with
  | [] => []
  | f :: fs => if f.name = fileName then fs else f :: removeFirstFile fs fileName

/-- Remove the first folder whose `name` matches. -/
def removeFirstFolder (folders : List FolderEntry) (fileName : String) : List FolderEntry :=
  match folders with
  | [] => []
  | f :: fs => if f.name = fileName then fs else f :: removeFirstFolder fs fileName

/-- `updateFileInCache(files, change, fullPath)`: drop the first entry with the
same name, then append a reconstructed entry whose `size` is
`additions + deletions` (the `Date.now()` fallback for a missing sha in the JS
`id` field is collapsed to the sha itself). -/
def updateFileInCache (files : List FileEntry) (change : Change) (fullPath : String) :
    List FileEntry :=
  let fileName := lastSegment fullPath
  removeFirstFile files fileName ++
    [{ id := change.sha, name := fileName, size := change.additions + change.deletions,
       path := fullPath, sha := change.sha }]

/-- `removeFileFromCache(files, folders, relativePath)`. -/
def removeFileFromCache (files : List FileEntry) (folders : List FolderEntry)
    (relativePath : String) : List FileEntry × List FolderEntry :=
  let fileName := lastSegment relativePath
  (removeFirstFile files fileName, removeFirstFolder folders fileName)

/-- The `pathPrefix` value of `applyChangesToCache`. -/
def pathPreOf (path : String) : String := if path ≠ "" then path ++ "/" else ""

/-- The `relativePath` value of `applyChangesToCache` for one changed file. -/
def relativeOf (path filePath : String) : String :=
  if path ≠ "" then strDrop filePath (pathPreOf path).length else filePath

/-- The direct-child test of `applyChangesToCache`: the changed path lies under
the cache path's prefix and its remainder has no further `/` segment. -/
def isDirectChild (path filePath : String) : Prop :=
  (path = "" ∨ strStartsWith filePath (pathPreOf path) = true) ∧
  strIncludes (relativeOf path filePath) "/" = false

instance (path filePath : String) : Decidable (isDirectChild path filePath) := by
  unfold isDirectChild; infer_instance

/-- The loop body of `applyChangesToCache` for one change. -/
def applyOneChange (path : String) (acc : List FileEntry × List FolderEntry)
    (change : Change) : List FileEntry × List FolderEntry :=
  let filePath := change.filename
  if path ≠ "" ∧ ¬ strStartsWith filePath (pathPreOf path) then acc
  else
    let relativePath := relativeOf path filePath
    if strIncludes relativePath "/" then acc
    else if change.status = "added" ∨ change.status = "modified" then
      if (strSplit relativePath '/').length = 1 then
        (updateFileInCache acc.1 change filePath, acc.2)
      else acc
    else if change.status = "removed" then
      removeFileFromCache acc.1 acc.2 relativePath
    else acc

/-- `applyChangesToCache(repoName, path, changes, cachedData)` restricted to
the listing lists it patches. -/
def applyChangesToCache (path : String) (changes : CompareData)
    (cachedFiles : List FileEntry) (cachedFolders : List FolderEntry) :
    List FileEntry × List FolderEntry :=
  changes.files.foldl (applyOneChange path) (cachedFiles, cachedFolders)

/-! ### Search scoring (source: `calculateMatchScore`) -/

/-- `calculateMatchScore(itemName, searchTerm, path)`: the source lower-cases
both sides unconditionally for the tier comparison, adds
`Math.max(0, 10 - pathDepth)` (`pathDepth` is `path.split('/').length` for a
nonempty path and `0` for the root) and a `+5` bonus when the raw name contains
the raw term. -/
def calculateMatchScore (itemName searchTerm path : String) : Nat :=
  let normalizedName := strToLower itemName
  let normalizedSearch := strToLower searchTerm
  let base : Nat :=
    if normalizedName = normalizedSearch then 100
    else if strStartsWith normalizedName normalizedSearch then 50
    else if strIncludes normalizedName normalizedSearch then 25
    else 0
  let pathDepth : Nat := if path ≠ "" then (strSplit path '/').length else 0
  let caseBonus : Nat := if strIncludes itemName searchTerm then 5 else 0
  base + Nat.max 0 (10 - pathDepth) + caseBonus

/-- Modelled from the spec's wording of the scoring rule, for comparison with
`calculateMatchScore`: tiers compared case-folded unless `caseSensitive`, plus
the depth bonus, plus the raw-containment bonus. -/
def claimedMatchScore (caseSensitive : Bool) (itemName searchTerm path : String) : Nat :=
  let name := if caseSensitive then itemName else strToLower itemName
  let term := if caseSensitive then searchTerm else strToLower searchTerm
  let base : Nat :=
    if name = term then 100
    else if strStartsWith name term then 50
    else if strIncludes name term then 25
    else 0
  let pathDepth : Nat := if path ≠ "" then (strSplit path '/').length else 0
  let caseBonus : Nat := if strIncludes itemName searchTerm then 5 else 0
  base + Nat.max 0 (10 - pathDepth) + caseBonus

/-! ### Cross-directory search (source: `getAllCachedPaths`,
`searchCachedData`, `fetchAndCacheFolderData`, `searchCachedDataEnhanced`) -/

/-- A search hit: the matched entry's name plus the augmentation fields
(`searchPath`, `fullPath`, `matchType`, `matchScore`). -/
structure SearchHit where
  name : String
  searchPath : String
  fullPath : String
  matchType : String
  matchScore : Nat
  deriving DecidableEq, Repr

/-- Path-segment count of a hit's full path (`fullPath.split('/').length`). -/
def hitDepth (h : SearchHit) : Nat := (strSplit h.fullPath '/').length

/-- Code-point lexicographic comparison of character lists (the model of JS
`localeCompare`). -/
def charListLe : List Char → List Char → Bool
  | [], _ => true
  | _ :: _, [] => false
  | a :: as, b :: bs =>
    if a < b then true
    else if b < a then false
    else charListLe as bs

/-- Lexicographic string comparison used for the final sort tie-break. -/
def strLe (a b : String) : Prop := charListLe a.data b.data = true

instance (a b : String) : Decidable (strLe a b) := by
  unfold strLe; infer_instance

/-- The ordering realised by the comparator of `results.sort`: a hit sorts no
later than another iff its score is higher, or scores tie and its full path
has fewer segments, or both tie and its full path is lexicographically no
greater. -/
def hitOrder (a b : SearchHit) : Prop :=
  b.matchScore < a.matchScore ∨
    (a.matchScore = b.matchScore ∧
      (hitDepth a < hitDepth b ∨
        (hitDepth a = hitDepth b ∧ strLe a.fullPath b.fullPath)))

instance : DecidableRel hitOrder := fun a b => by
  unfold hitOrder; infer_instance

/-- First-occurrence deduplication against an already-seen list. -/
def dedupFirstAux (seen : List String) : List String → List String
  | [] => []
  | x :: xs =>
    if seen.contains x then dedupFirstAux seen xs
    else x :: dedupFirstAux (x :: seen) xs

/-- First-occurrence deduplication (JS `Set` insertion semantics). -/
def dedupFirst (l : List String) : List String := dedupFirstAux [] l

/-- `getAllCachedPaths(repoName)`: paths of volatile entries belonging to the
repository, then paths recovered from durable keys with the repository's key
prefix (`root` decoding back to the empty path), first occurrence kept. -/
def getAllCachedPaths (st : Store) (repoName : String) : List String :=
  let memPaths := (st.memoryCache.filter (fun p => p.2.repoName = repoName)).map
    (fun p => p.2.path)
  let keyPre := cachePre ++ repoName ++ "_"
  let lsPaths := (st.lsData.map Prod.fst).filterMap (fun key =>
    if strStartsWith key keyPre ∧ key.length > keyPre.length then
      let path := strDrop key keyPre.length
      some (if path = "root" then "" else path)
    else none)
  dedupFirst (memPaths ++ lsPaths)

/-- Build one search hit for a matched file or folder of a cached listing. -/
def mkHit (name path matchType searchTerm : String) : SearchHit :=
  { name := name, searchPath := path,
    fullPath := if path ≠ "" then path ++ "/" ++ name else name,
    matchType := matchType,
    matchScore := calculateMatchScore name searchTerm path }

/-- Search options object; a `none` field was omitted by the caller and takes
the destructuring default of the receiving function. -/
structure SearchOptions where
  includeFiles : Option Bool := none
  includeFolders : Option Bool := none
  caseSensitive : Option Bool := none
  maxResults : Option Nat := none

/-- The shared tail of both search forms: sort with the comparator, then
`slice(0, maxResults)`. -/
def finishSearch (results : List SearchHit) (maxResults : Nat) : List SearchHit :=
  (List.insertionSort hitOrder results).take maxResults

/-- The gathering pass of `searchCachedData`: every cached path of the
repository is read through `getCachedData` (threading its evictions and
promotions) and its file and folder rows are filtered by containment of the
(optionally folded) term. -/
def gatherHits (st : Store) (now : Nat) (repoName searchTerm : String)
    (includeFiles includeFolders caseSensitive : Bool) : List SearchHit × Store :=
  let normalizedSearchTerm := if caseSensitive then searchTerm else strToLower searchTerm
  let cachedPaths := getAllCachedPaths st repoName
  cachedPaths.foldl (fun acc path =>
    match getCachedData acc.2 now repoName path with
    | (none, st2) => (acc.1, st2)
    | (some cachedData, st2) =>
      let fileHits := if includeFiles then
          (cachedData.files.filter (fun file =>
            strIncludes (if caseSensitive then file.name else strToLower file.name)
              normalizedSearchTerm)).map
            (fun file => mkHit file.name path "file" searchTerm)
        else []
      let folderHits := if includeFolders then
          (cachedData.folders.filter (fun folder =>
            strIncludes (if caseSensitive then folder.name else strToLower folder.name)
              normalizedSearchTerm)).map
            (fun folder => mkHit folder.name path "folder" searchTerm)
        else []
      (acc.1 ++ fileHits ++ folderHits, st2)) ([], st)

/-- `searchCachedData(repoName, searchTerm, options)`: gather, sort with the
comparator, then `slice(0, maxResults)` (default 100). -/
def searchCachedData (st : Store) (now : Nat) (repoName searchTerm : String)
    (opts : SearchOptions) : List SearchHit × Store :=
  let includeFiles := opts.includeFiles.getD true
  let includeFolders := opts.includeFolders.getD true
  let caseSensitive := opts.caseSensitive.getD false
  let maxResults := opts.maxResults.getD 100
  let (results, st1) := gatherHits st now repoName searchTerm
    includeFiles includeFolders caseSensitive
  (finishSearch results maxResults, st1)

/-- Map a `contents` listing to the module's file/folder records (the
`type === 'file'` / `type === 'dir'` split of the source). -/
def mapRemoteItems (items : List RemoteItem) : List FileEntry × List FolderEntry :=
  ((items.filter (fun i => i.itemType = "file")).map
     (fun i => { id := i.sha, name := i.name, size := i.size, path := i.path, sha := i.sha }),
   (items.filter (fun i => i.itemType = "dir")).map
     (fun i => { id := i.sha, name := i.name, path := i.path }))

/-- `fetchAndCacheFolderData(giteaHost, giteaToken, repoName, folderPath)`:
guard on a missing repository name, fetch the listing (404 and errors both
return `null`), map it, resolve the current commit sha and — only when that
succeeds — cache the listing under it. -/
def fetchAndCacheFolderData (api : Api) (st : Store) (now : Nat)
    (repoName folderPath : String) :
    Option (List FileEntry × List FolderEntry) × Store :=
  if repoName = "" then (none, st)
  else match api.contents folderPath with
  | .notFound => (none, st)
  | .err => (none, st)
  | .ok data =>
    let (files, folders) := mapRemoteItems data
    match getLatestCommitSha api repoName now with
    | some commitSha =>
      (some (files, folders),
       setCachedData st now repoName folderPath commitSha files folders false)
    | none => (some (files, folders), st)

/-- The keyword-to-folder-name heuristics of the enhanced search, in source
order (`searchTermLower.includes(...)` conditions). -/
def heuristicFolders (searchTermLower : String) : List String :=
  (if strIncludes searchTermLower "external" || strIncludes searchTermLower "comment"
    then ["external_comments"] else []) ++
  (if strIncludes searchTermLower "doc" || strIncludes searchTermLower "pdf"
    then ["documents"] else []) ++
  (if strIncludes searchTermLower "file" then ["files"] else []) ++
  (if strIncludes searchTermLower "image" || strIncludes searchTermLower "pic" ||
      strIncludes searchTermLower "screenshot" then ["images", "assets"] else []) ++
  (if strIncludes searchTermLower "data" then ["data"] else []) ++
  (if strIncludes searchTermLower "content" then ["content"] else []) ++
  (if strIncludes searchTermLower "src" || strIncludes searchTermLower "code"
    then ["src"] else []) ++
  (if strIncludes searchTermLower "public" then ["public"] else []) ++
  (if strIncludes searchTermLower "private" then ["private"] else []) ++
  (if strIncludes searchTermLower "shared" then ["shared"] else [])

/-- The on-demand folder loop of the enhanced search.  Each folder of
`foldersToCheck` is fetched and, when the fetch succeeds, its matching rows are
appended; the loop stops (`break`) once `maxResults` hits have accumulated.
In the folder branch the source's inner `const folderName` shadows the loop
variable, so a matched subfolder's `searchPath`, `fullPath` and score path all
use the (possibly lowercased) subfolder name itself instead of the fetched
folder's path; the embedding reproduces that. -/
def enhancedFolderLoop (api : Api) (now : Nat) (repoName searchTerm : String)
    (normalizedSearchTerm : String)
    (includeFiles includeFolders caseSensitive : Bool) (maxResults : Nat) :
    List String → List SearchHit → Store → List SearchHit × Store
  | [], results, st => (results, st)
  | folderName :: rest, results, st =>
    match fetchAndCacheFolderData api st now repoName folderName with
    | (none, st1) =>
      enhancedFolderLoop api now repoName searchTerm normalizedSearchTerm
        includeFiles includeFolders caseSensitive maxResults rest results st1
    | (some (files, folders), st1) =>
      let fileHits := if includeFiles then
          (files.filter (fun file =>
            strIncludes (if caseSensitive then file.name else strToLower file.name)
              normalizedSearchTerm)).map
            (fun file => mkHit file.name folderName "file" searchTerm)
        else []
      let folderHits := if includeFolders then
          folders.filterMap (fun folder =>
            let innerName := if caseSensitive then folder.name else strToLower folder.name
            if strIncludes innerName normalizedSearchTerm then
              some { name := folder.name, searchPath := innerName,
                     fullPath := innerName ++ "/" ++ folder.name, matchType := "folder",
                     matchScore := calculateMatchScore folder.name searchTerm innerName }
            else none)
        else []
      let results1 := results ++ fileHits ++ folderHits
      if results1.length ≥ maxResults then (results1, st1)
      else
        enhancedFolderLoop api now repoName searchTerm normalizedSearchTerm
          includeFiles includeFolders caseSensitive maxResults rest results1 st1

/-- Parent path of a tree item (`pathParts.slice(0, -1).join('/')`, empty for a
top-level path). -/
def parentOfPath (p : String) : String :=
  let pathParts := strSplit p '/'
  if pathParts.length > 1 then String.intercalate "/" pathParts.dropLast else ""

/-- The full-tree fallback loop of the enhanced search over the recursive
listing, with the same `break` once `maxResults` hits have accumulated. -/
def enhancedTreeLoop (searchTerm normalizedSearchTerm : String)
    (includeFiles includeFolders caseSensitive : Bool) (maxResults : Nat) :
    List TreeItem → List SearchHit → List SearchHit
  | [], results => results
  | item :: rest, results =>
    let fileHits := if includeFiles ∧ item.itemType = "file" ∧
        strIncludes (if caseSensitive then item.name else strToLower item.name)
          normalizedSearchTerm = true then
        [{ name := item.name, searchPath := parentOfPath item.path, fullPath := item.path,
           matchType := "file",
           matchScore := calculateMatchScore item.name searchTerm (parentOfPath item.path) }]
      else []
    let folderHits := if includeFolders ∧ item.itemType = "dir" ∧
        strIncludes (if caseSensitive then item.name else strToLower item.name)
          normalizedSearchTerm = true then
        [{ name := item.name, searchPath := parentOfPath item.path, fullPath := item.path,
           matchType := "folder",
           matchScore := calculateMatchScore item.name searchTerm (parentOfPath item.path) }]
      else []
    let results1 := results ++ fileHits ++ folderHits
    if results1.length ≥ maxResults then results1
    else enhancedTreeLoop searchTerm normalizedSearchTerm
      includeFiles includeFolders caseSensitive maxResults rest results1

/-- `searchCachedDataEnhanced(giteaHost, giteaToken, repoName, searchTerm,
options)`: the synchronous pass first (note it is handed the same options
object, hence its own 100 default); when the term is nonblank and fewer than
`maxResults` (default 200) hits exist, root subfolders plus heuristic folder
names not already cached are fetched on demand, then a recursive tree listing
is scanned if there are still zero hits; finally everything gathered is sorted
with the comparator and `slice(0, maxResults)` applied. -/
def searchCachedDataEnhanced (api : Api) (st : Store) (now : Nat)
    (repoName searchTerm : String) (opts : SearchOptions) : List SearchHit × Store :=
  let includeFiles := opts.includeFiles.getD true
  let includeFolders := opts.includeFolders.getD true
  let caseSensitive := opts.caseSensitive.getD false
  let maxResults := opts.maxResults.getD 200
  let normalizedSearchTerm := if caseSensitive then searchTerm else strToLower searchTerm
  let (cachedResults, st1) := searchCachedData st now repoName searchTerm opts
  if jsTrim searchTerm ≠ "" ∧ cachedResults.length < maxResults then
    let cachedPaths := getAllCachedPaths st1 repoName
    let (rootFolderNames, st2) :=
      match getCachedData st1 now repoName "" with
      | (some rootData, s) => (rootData.folders.map (fun f => f.name), s)
      | (none, s) =>
        match fetchAndCacheFolderData api s now repoName "" with
        | (some (_, folders), s2) => (folders.map (fun f => f.name), s2)
        | (none, s2) => ([], s2)
    let relevantFolders := rootFolderNames ++ heuristicFolders (strToLower searchTerm)
    let foldersToCheck := (dedupFirst relevantFolders).filter
      (fun folder => ¬ cachedPaths.contains folder)
    let (results1, st3) := enhancedFolderLoop api now repoName searchTerm
      normalizedSearchTerm includeFiles includeFolders caseSensitive maxResults
      foldersToCheck cachedResults st2
    let results2 :=
      if results1.length = 0 then
        match api.tree with
        | some allContents =>
          enhancedTreeLoop searchTerm normalizedSearchTerm
            includeFiles includeFolders caseSensitive maxResults allContents results1
        | none => results1
      else results1
    (finishSearch results2 maxResults, st3)
  else
    (finishSearch cachedResults maxResults, st1)

/-! ### Directory loading (source: `loadContents` / `loadContentsDirectly` of
the file view) -/

/-- What one `loadContents` call did: an uncached direct load (version
resolution failed), a cache hit served unchanged from the store, or a fresh
fetch stored under the newly resolved token (`listing = none` when the direct
fetch itself failed, in which case nothing is cached). -/
inductive LoadAction where
  | directNoCache (listing : Option (List FileEntry × List FolderEntry))
  | cacheHit (files : List FileEntry) (folders : List FolderEntry)
  | fetchedFresh (token : String) (listing : Option (List FileEntry × List FolderEntry))
  deriving DecidableEq, Repr

/-- `loadContentsDirectly(path, ...)`: maps an `ok` listing; a 404 sets empty
lists and still reports success (the root-redirect UI flow on 404 is outside
the cache model); a thrown error reports failure (`return false`). -/
def loadContentsDirectly (api : Api) (path : String) :
    Option (List FileEntry × List FolderEntry) :=
  match api.contents path with
  | .ok items => some (mapRemoteItems items)
  | .notFound => some ([], [])
  | .err => none

/-- The commit-comparison core of `loadContents`: resolve the latest sha (a
failure falls back to an uncached direct load); read the stored sha; on a
truthy, equal stored sha serve the cached entry when present; otherwise fetch
fresh and — when the fetch succeeded — store the listing under the resolved
sha. -/
def loadContents (api : Api) (st : Store) (now : Nat) (repoName path : String) :
    LoadAction × Store :=
  match getLatestCommitSha api repoName now with
  | none => (.directNoCache (loadContentsDirectly api path), st)
  | some latestCommitSha =>
    let res := getCachedCommitSha st now repoName
    let storedCommitSha := res.1
    let st1 := res.2
    let fetchFresh : Store → LoadAction × Store := fun s =>
      match loadContentsDirectly api path with
      | some (files, folders) =>
        (.fetchedFresh latestCommitSha (some (files, folders)),
         setCachedData s now repoName path latestCommitSha files folders false)
      | none => (.fetchedFresh latestCommitSha none, s)
    match storedCommitSha with
    | some stored =>
      if stored ≠ "" ∧ stored = latestCommitSha then
        match getCachedData st1 now repoName path with
        | (some cachedData, st2) => (.cacheHit cachedData.files cachedData.folders, st2)
        | (none, st2) => fetchFresh st2
      else fetchFresh st1
    | none => fetchFresh st1

/-! ### Concrete fixtures used by witnesses and counterexamples -/

/-- An environment in which every remote call fails. -/
def apiNone : Api :=
  { branchInfo := fun _ => none, commitsList := fun _ => none, repoInfo := none,
    contents := fun _ => .err, compare := fun _ _ => none, tree := none }

/-- An environment for a repository reporting zero commits: the commit
endpoints yield nothing and repository info reports `empty` with a falsy
default branch. -/
def apiEmptyRepo : Api :=
  { branchInfo := fun _ => none, commitsList := fun _ => none,
    repoInfo := some { default_branch := "", empty := true },
    contents := fun _ => .err, compare := fun _ _ => none, tree := none }

/-- A file row used by the cache-hit scenario. -/
def fileC1 : FileEntry := { id := "1", name := "a.txt", size := 1, path := "a.txt", sha := "s1" }

/-- A root cache entry stored under the placeholder token `empty-repo-5`. -/
def entryC1 : CacheEntry :=
  { version := CACHE_VERSION, timestamp := 5, lastFetched := 5, commitSha := "empty-repo-5",
    path := "", files := [fileC1], folders := [], repoName := "r" }

/-- A store whose commit record and root listing were cached at time 5 under
the placeholder token. -/
def stC1 : Store :=
  { memoryCache := [(getCacheKey "r" "", entryC1)],
    commitCache := [("r", { version := CACHE_VERSION, timestamp := 5, commitSha := "empty-repo-5" })],
    lsData := [], lsCommit := [] }

/-- A store whose durable commit record carries a stale format version. -/
def stC3 : Store :=
  { memoryCache := [], commitCache := [], lsData := [],
    lsCommit := [(getCommitCacheKey "r",
      some { version := "0.9", timestamp := 1000, commitSha := "abc" })] }

/-- A store whose durable listing record is exactly `MAX_CACHE_AGE` old at
read time. -/
def stC3b : Store :=
  { memoryCache := [], commitCache := [],
    lsData := [(getCacheKey "r" "",
      some { version := CACHE_VERSION, timestamp := 0, lastFetched := 0, commitSha := "abc",
             path := "", files := [], folders := [], repoName := "r" })],
    lsCommit := [] }

/-- A 25-hours-stale cache entry replicated on both tiers. -/
def entryOld : CacheEntry :=
  { version := CACHE_VERSION, timestamp := 0, lastFetched := 0, commitSha := "abc",
    path := "", files := [], folders := [], repoName := "r" }

/-- The commit record matching `entryOld`. -/
def commitOld : CommitEntry := { version := CACHE_VERSION, timestamp := 0, commitSha := "abc" }

/-- A store holding `entryOld`/`commitOld` on both tiers. -/
def stOld : Store :=
  { memoryCache := [(getCacheKey "r" "", entryOld)],
    commitCache := [("r", commitOld)],
    lsData := [(getCacheKey "r" "", some entryOld)],
    lsCommit := [(getCommitCacheKey "r", some commitOld)] }

/-- 25 hours in milliseconds. -/
def twentyFiveHours : Nat := 25 * 60 * 60 * 1000

/-- The files of the diff-patch example (`{a.txt, b.txt}` under `dir`). -/
def fileA : FileEntry := { id := "1", name := "a.txt", size := 1, path := "dir/a.txt", sha := "sa" }

/-- Second file of the diff-patch example. -/
def fileB : FileEntry := { id := "2", name := "b.txt", size := 2, path := "dir/b.txt", sha := "sb" }

/-- The removal change of the diff-patch example. -/
def changeRemove : Change :=
  { filename := "dir/b.txt", status := "removed", sha := "", additions := 0, deletions := 0 }

/-- An added-file change used to instantiate the patch theorem. -/
def changeAdd : Change :=
  { filename := "dir/c.txt", status := "added", sha := "sc", additions := 3, deletions := 4 }

/-- A name-cased file row for the scoring counterexample. -/
def fileC6 : FileEntry :=
  { id := "1", name := "report-Report", size := 1, path := "report-Report", sha := "s" }

/-- A store caching `fileC6` at the root. -/
def stC6 : Store :=
  { memoryCache := [(getCacheKey "r" "",
      { version := CACHE_VERSION, timestamp := 0, lastFetched := 0, commitSha := "c",
        path := "", files := [fileC6], folders := [], repoName := "r" })],
    commitCache := [], lsData := [], lsCommit := [] }

/-- Root file whose name only contains the query term. -/
def fileWeak : FileEntry :=
  { id := "1", name := "myreport.txt", size := 1, path := "myreport.txt", sha := "w" }

/-- Root subfolder holding a stronger match, fetchable on demand. -/
def folderDocs : FolderEntry := { id := "2", name := "docs", path := "docs" }

/-- The cached root listing of the enhanced-search scenario. -/
def rootEntryC7 : CacheEntry :=
  { version := CACHE_VERSION, timestamp := 0, lastFetched := 0, commitSha := "abc",
    path := "", files := [fileWeak], folders := [folderDocs], repoName := "r" }

/-- Store with only the root cached. -/
def stC7 : Store :=
  { memoryCache := [(getCacheKey "r" "", rootEntryC7)],
    commitCache := [], lsData := [], lsCommit := [] }

/-- Environment serving the `docs` folder with an exact-match file. -/
def apiC7 : Api :=
  { branchInfo := fun _ => some "abc", commitsList := fun _ => none, repoInfo := none,
    contents := fun p =>
      if p = "docs" then
        .ok [{ name := "report", itemType := "file", size := 2, path := "docs/report", sha := "rs" }]
      else .err,
    compare := fun _ _ => none, tree := none }

/-- The weak root hit of the enhanced-search scenario. -/
def hitWeak : SearchHit := mkHit "myreport.txt" "" "file" "report"

/-- The strong on-demand hit of the enhanced-search scenario. -/
def hitStrong : SearchHit := mkHit "report" "docs" "file" "report"

/-- A store whose commit record was written at time 0 for an empty
repository. -/
def stC8 : Store :=
  { memoryCache := [], commitCache := [], lsData := [],
    lsCommit := [(getCommitCacheKey "r",
      some { version := CACHE_VERSION, timestamp := 0, commitSha := "empty-repo-0" })] }

/-- A store whose durable listing value is corrupt. -/
def stC9 : Store :=
  { memoryCache := [], commitCache := [], lsData := [(getCacheKey "r" "", none)],
    lsCommit := [] }

/-- The empty store. -/
def stEmpty : Store := { memoryCache := [], commitCache := [], lsData := [], lsCommit := [] }

/-! ## Theorems -/

theorem toDigitsCore_eq_repChars (fuel : Nat) :
    ∀ (n : Nat) (acc : List Char), n < fuel →
      Nat.toDigitsCore 10 fuel n acc = repChars n ++ acc := by
  induction fuel with
  | zero => intro n acc h; omega
  | succ f ih =>
    intro n acc h
    by_cases h10 : n / 10 = 0
    · have hn : n < 10 := by
        rcases Nat.div_eq_zero_iff (by omega : 0 < 10) |>.mp h10 with h'
        exact h'
      rw [repChars]
      simp [Nat.toDigitsCore, h10, hn, Nat.mod_eq_of_lt hn]
    · have hn : ¬ n < 10 := fun hlt => h10 (Nat.div_eq_of_lt hlt)
      have hstep : Nat.toDigitsCore 10 (f + 1) n acc
          = Nat.toDigitsCore 10 f (n / 10) (Nat.digitChar (n % 10) :: acc) := by
        rw [Nat.toDigitsCore.eq_def]
        simp [h10]
      have hfuel : n / 10 < f := by
        have h1 : n / 10 < n := Nat.div_lt_self (by omega) (by omega)
        omega
      rw [hstep, ih (n / 10) _ hfuel]
      conv_rhs => rw [repChars]
      simp [hn]

theorem toDigits_eq_repChars (n : Nat) : Nat.toDigits 10 n = repChars n := by
  have := toDigitsCore_eq_repChars (n + 1) n [] (Nat.lt_succ_self n)
  simpa [Nat.toDigits] using this

theorem digitVal_digitChar (d : Nat) (h : d < 10) :
    digitVal (Nat.digitChar d) = d := by
  interval_cases d <;> rfl

theorem reprValue_append_digit (l : List Char) (c : Char) :
    reprValue (l ++ [c]) = 10 * reprValue l + digitVal c := by
  simp [reprValue, List.foldl_append]

theorem reprValue_repChars (n : Nat) : reprValue (repChars n) = n := by
  induction n using Nat.strong_induction_on with
  | _ n ih =>
    by_cases h : n < 10
    · rw [repChars]
      simp [h, reprValue, digitVal_digitChar n h]
    · rw [repChars]
      simp only [h, if_false]
      rw [reprValue_append_digit,
        ih (n / 10) (Nat.div_lt_self (by omega) (by omega)),
        digitVal_digitChar (n % 10) (Nat.mod_lt _ (by omega))]
      omega

theorem natRepr_injective {m n : Nat} (h : Nat.repr m = Nat.repr n) : m = n := by
  have hchars : repChars m = repChars n := by
    have h' := h
    unfold Nat.repr at h'
    rw [toDigits_eq_repChars, toDigits_eq_repChars] at h'
    simp only [List.asString] at h'
    exact congrArg String.data h'
  have hm := reprValue_repChars m
  rw [hchars, reprValue_repChars] at hm
  omega


/-! ### Association-list lemmas -/

theorem lookupKV_insertKV_self {α : Type} (l : List (String × α)) (k : String) (v : α) :
    lookupKV (insertKV l k v) k = some v := by
  unfold lookupKV insertKV removeKV
  induction l with
  | nil => simp [List.find?]
  | cons p ps ih =>
    by_cases hp : p.1 = k
    · simpa [List.filter_cons, hp] using ih
    · simpa [List.filter_cons, hp, List.find?_cons] using ih

theorem lookupKV_removeKV_self {α : Type} (l : List (String × α)) (k : String) :
    lookupKV (removeKV l k) k = none := by
  unfold lookupKV removeKV
  induction l with
  | nil => rfl
  | cons p ps ih =>
    by_cases hp : p.1 = k
    · simpa [List.filter_cons, hp] using ih
    · simpa [List.filter_cons, hp, List.find?_cons] using ih

/-! ### Split lemmas -/

theorem splitChar_no_sep (sep : Char) (l : List Char) (h : sep ∉ l) :
    splitChar sep l = [l] := by
  induction l with
  | nil => rfl
  | cons c cs ih =>
    have hc : ¬ c = sep := fun hcs => h (hcs ▸ List.mem_cons_self c cs)
    have hcs' : sep ∉ cs := fun hm => h (List.mem_cons_of_mem c hm)
    simp [splitChar, hc, ih hcs']

theorem not_mem_of_strIncludes_false {s : String} {c : Char}
    (h : strIncludes s (String.mk [c]) = false) : c ∉ s.data := by
  intro hm
  rcases List.append_of_mem hm with ⟨l1, l2, hl⟩
  have hinf : [c] <:+: s.data := by
    rw [hl]
    exact ⟨l1, l2, by simp⟩
  simp [strIncludes] at h
  exact h hinf

theorem strSplit_no_slash (s : String) (h : strIncludes s "/" = false) :
    strSplit s '/' = [s] := by
  have hm : '/' ∉ s.data := not_mem_of_strIncludes_false h
  simp [strSplit, splitChar_no_sep '/' s.data hm]

theorem lastSegment_no_slash (s : String) (h : strIncludes s "/" = false) :
    lastSegment s = s := by
  simp [lastSegment, strSplit_no_slash s h]

/-! ### Claim C10 -/

/-- C10: a missing/empty repository name makes `getLatestCommitSha` and
`fetchAndCacheFolderData` return `null` at once — independently of the remote
environment (hence with no remote request) and leaving the store untouched. -/
theorem c10_empty_repo_name_guard :
    (∀ (api : Api) (now : Nat) (branch : String),
       getLatestCommitSha api "" now branch = none) ∧
    (∀ (api : Api) (st : Store) (now : Nat) (folderPath : String),
       fetchAndCacheFolderData api st now "" folderPath = (none, st)) := by
  constructor
  · intro api now branch
    simp [getLatestCommitSha]
  · intro api st now folderPath
    simp [fetchAndCacheFolderData]

/-! ### Claim C4 -/

/-- C4: `getCommitChanges` returns the explicit refresh-needed sentinel — a
single file marker of status `refresh-needed` and no commits — whenever either
token has a placeholder prefix or the remote compare call fails/throws. -/
theorem c4_refresh_sentinel (api : Api) (fromCommit toCommit : String)
    (h : strStartsWith fromCommit "empty-repo-" = true ∨
         strStartsWith fromCommit "contents-based-" = true ∨
         strStartsWith toCommit "empty-repo-" = true ∨
         strStartsWith toCommit "contents-based-" = true ∨
         api.compare fromCommit toCommit = none) :
    getCommitChanges api fromCommit toCommit = refreshNeededResult ∧
    refreshNeededResult.files.map Change.status = ["refresh-needed"] ∧
    refreshNeededResult.commits = [] := by
  refine ⟨?_, rfl, rfl⟩
  unfold getCommitChanges
  by_cases hp : (strStartsWith fromCommit "empty-repo-" ||
      strStartsWith fromCommit "contents-based-" ||
      strStartsWith toCommit "empty-repo-" ||
      strStartsWith toCommit "contents-based-") = true
  · simp [hp]
  · have hnone : api.compare fromCommit toCommit = none := by
      rcases h with h | h | h | h | h
      · exact absurd (by simp [h]) hp
      · exact absurd (by simp [h]) hp
      · exact absurd (by simp [h]) hp
      · exact absurd (by simp [h]) hp
      · exact h
    simp only [Bool.not_eq_true] at hp
    simp [hp, hnone]

/-- Witness for C4 at a concrete input: a placeholder `fromCommit` with a
failing compare environment. -/
theorem c4_refresh_sentinel_witness :
    (strStartsWith "empty-repo-7" "empty-repo-" = true ∨
     strStartsWith "empty-repo-7" "contents-based-" = true ∨
     strStartsWith "abc" "empty-repo-" = true ∨
     strStartsWith "abc" "contents-based-" = true ∨
     apiNone.compare "empty-repo-7" "abc" = none) ∧
    (getCommitChanges apiNone "empty-repo-7" "abc" = refreshNeededResult ∧
     refreshNeededResult.files.map Change.status = ["refresh-needed"] ∧
     refreshNeededResult.commits = []) :=
  ⟨Or.inl (by decide), c4_refresh_sentinel apiNone "empty-repo-7" "abc" (Or.inl (by decide))⟩

/-! ### Claim C2 -/

/-- C2: for a nonempty repository name, version resolution equals the strictly
ordered five-step cascade (branch info, one-commit history, repository-info
retry, empty-repo placeholder, contents-probe placeholder), each later step
attempted only when every earlier one produced nothing, and it returns `none`
exactly when all five steps fail. -/
theorem c2_strict_order (api : Api) (repoName branch : String) (now : Nat)
    (h : repoName ≠ "") :
    getLatestCommitSha api repoName now branch = resolveVersionSpec api branch now ∧
    (getLatestCommitSha api repoName now branch = none ↔
      resolveStep1 api branch = none ∧ resolveStep2 api branch = none ∧
      resolveStep3 api = none ∧ resolveStep4 api now = none ∧
      resolveStep5 api now = none) := by
  have heq : getLatestCommitSha api repoName now branch = resolveVersionSpec api branch now := by
    unfold getLatestCommitSha resolveVersionSpec resolveStep1 resolveStep2 resolveStep3
      resolveStep4 resolveStep5
    rw [if_neg h]
    cases api.branchInfo branch with
    | some id => rfl
    | none =>
      cases api.commitsList branch with
      | some sha => rfl
      | none =>
        cases api.repoInfo with
        | none => rfl
        | some repoData =>
          dsimp only
          rcases hretr : (if repoData.default_branch ≠ "" then
              match api.branchInfo repoData.default_branch with
              | some id => some id
              | none => api.commitsList repoData.default_branch
            else none) with _ | sha
          · rw [hretr]
            by_cases he : repoData.empty <;> simp [he, contentsProbeStep]
          · rw [hretr]
  refine ⟨heq, ?_⟩
  rw [heq]
  unfold resolveVersionSpec
  cases h1 : resolveStep1 api branch <;>
    cases h2 : resolveStep2 api branch <;>
      cases h3 : resolveStep3 api <;>
        cases h4 : resolveStep4 api now <;>
          cases h5 : resolveStep5 api now <;> simp

/-- Witness for C2: the all-failing environment with a nonempty repository
name. -/
theorem c2_strict_order_witness :
    ("demo" : String) ≠ "" ∧
    (getLatestCommitSha apiNone "demo" 0 "main" = resolveVersionSpec apiNone "main" 0 ∧
     (getLatestCommitSha apiNone "demo" 0 "main" = none ↔
       resolveStep1 apiNone "main" = none ∧ resolveStep2 apiNone "main" = none ∧
       resolveStep3 apiNone = none ∧ resolveStep4 apiNone 0 = none ∧
       resolveStep5 apiNone 0 = none)) :=
  ⟨by decide, c2_strict_order apiNone "demo" "main" 0 (by decide)⟩

/-! ### Claim C6 -/

/-- C6 counterexample: with `caseSensitive` set, the claim's formula compares
the raw name against the raw term, giving base tier 25 for
`"report-Report"` vs `"Report"` (contains only, score 40); the code folds both
sides unconditionally, giving base tier 50 (starts-with, score 65) — and the
search pipeline run with `caseSensitive: true` indeed reports 65. -/
theorem c6_counterexample :
    calculateMatchScore "report-Report" "Report" "" = 65 ∧
    claimedMatchScore true "report-Report" "Report" "" = 40 ∧
    calculateMatchScore "report-Report" "Report" "" ≠
      claimedMatchScore true "report-Report" "Report" "" ∧
    (searchCachedData stC6 0 "r" "Report" { caseSensitive := some true }).1.map
      SearchHit.matchScore = [65] := by
  refine ⟨by decide, by decide, by decide, by decide⟩

/-- C6 amended: the relevance score always equals the case-folded formula —
one base tier (100 exact / 50 starts-with / 25 contains / 0, on lower-cased
name and term irrespective of any `caseSensitive` option, which only affects
candidate filtering), plus `max(0, 10 - pathDepth)`, plus 5 when the raw name
contains the raw term. -/
theorem c6_amended_score_formula (itemName searchTerm path : String) :
    calculateMatchScore itemName searchTerm path =
      claimedMatchScore false itemName searchTerm path := rfl

/-! ### Claim C8 -/

theorem natRepr_append_injective (pre : String) {t1 t2 : Nat} (h : t1 ≠ t2) :
    pre ++ Nat.repr t1 ≠ pre ++ Nat.repr t2 := by
  intro he
  apply h
  apply natRepr_injective
  have hd := congrArg String.data he
  simp only [String.data_append] at hd
  have := List.append_cancel_left hd
  cases hr1 : Nat.repr t1
  cases hr2 : Nat.repr t2
  simp_all

/-- C8: two resolutions for an empty repository at distinct wall-clock
milliseconds synthesise distinct placeholder strings, so the stored token
from the first resolution never equals the fresh one and `loadContents` takes
the full-reload (`fetchedFresh`) path instead of a cache hit. -/
theorem c8_placeholder_tokens_change (api : Api) (st : Store)
    (repoName path : String) (t1 t2 : Nat)
    (hne : t1 ≠ t2) (hrepo : repoName ≠ "")
    (hb : api.branchInfo "main" = none) (hc : api.commitsList "main" = none)
    (hr : api.repoInfo = some { default_branch := "", empty := true })
    (hstored : (getCachedCommitSha st t2 repoName).1 = some ("empty-repo-" ++ Nat.repr t1)) :
    getLatestCommitSha api repoName t1 = some ("empty-repo-" ++ Nat.repr t1) ∧
    getLatestCommitSha api repoName t2 = some ("empty-repo-" ++ Nat.repr t2) ∧
    "empty-repo-" ++ Nat.repr t1 ≠ "empty-repo-" ++ Nat.repr t2 ∧
    ∃ listing st',
      loadContents api st t2 repoName path
        = (.fetchedFresh ("empty-repo-" ++ Nat.repr t2) listing, st') := by
  have hres : ∀ t : Nat, getLatestCommitSha api repoName t
      = some ("empty-repo-" ++ Nat.repr t) := by
    intro t
    unfold getLatestCommitSha
    rw [if_neg hrepo, hb, hc, hr]
    rfl
  have hdist : ("empty-repo-" ++ Nat.repr t1 : String) ≠ "empty-repo-" ++ Nat.repr t2 :=
    natRepr_append_injective _ hne
  refine ⟨hres t1, hres t2, hdist, ?_⟩
  unfold loadContents
  rw [hres t2]
  rcases hcs : getCachedCommitSha st t2 repoName with ⟨stored, st1⟩
  rw [hcs] at hstored
  dsimp only at hstored ⊢
  subst hstored
  dsimp only
  rw [if_neg (by
    rintro ⟨-, heq⟩
    exact hdist heq)]
  cases hdl : loadContentsDirectly api path with
  | some listing =>
    rcases listing with ⟨files, folders⟩
    exact ⟨_, _, rfl⟩
  | none =>
    exact ⟨_, _, rfl⟩

/-- Witness for C8: times 0 and 1 for repository `"r"`, the store holding the
time-0 placeholder. -/
theorem c8_placeholder_tokens_change_witness :
    (0 : Nat) ≠ 1 ∧ ("r" : String) ≠ "" ∧
    apiEmptyRepo.branchInfo "main" = none ∧ apiEmptyRepo.commitsList "main" = none ∧
    apiEmptyRepo.repoInfo = some { default_branch := "", empty := true } ∧
    (getCachedCommitSha stC8 1 "r").1 = some ("empty-repo-" ++ Nat.repr 0) ∧
    (getLatestCommitSha apiEmptyRepo "r" 0 = some ("empty-repo-" ++ Nat.repr 0) ∧
     getLatestCommitSha apiEmptyRepo "r" 1 = some ("empty-repo-" ++ Nat.repr 1) ∧
     ("empty-repo-" ++ Nat.repr 0 : String) ≠ "empty-repo-" ++ Nat.repr 1 ∧
     ∃ listing st',
       loadContents apiEmptyRepo stC8 1 "r" ""
         = (.fetchedFresh ("empty-repo-" ++ Nat.repr 1) listing, st')) :=
  ⟨by decide, by decide, rfl, rfl, rfl, by decide,
   c8_placeholder_tokens_change apiEmptyRepo stC8 "r" "" 0 1
     (by decide) (by decide) rfl rfl rfl (by decide)⟩

/-! ### Claim C9 -/

/-- C9: a durable-tier failure never reaches the caller.  A corrupt durable
value (the `JSON.parse` throw) makes `getCachedData` return `null` with the
store untouched; a throwing deferred durable write still leaves `setCachedData`
returning normally with the volatile map holding the freshly written entry and
every other tier unchanged (memory-only caching for that write). -/
theorem c9_durable_failure_swallowed (st : Store) (now : Nat) (repoName path : String)
    (commitSha : String) (files : List FileEntry) (folders : List FolderEntry)
    (hmem : lookupKV st.memoryCache (getCacheKey repoName path) = none)
    (hcorrupt : lookupKV st.lsData (getCacheKey repoName path) = some none) :
    getCachedData st now repoName path = (none, st) ∧
    (lookupKV (setCachedData st now repoName path commitSha files folders true).memoryCache
        (getCacheKey repoName path)
      = some { version := CACHE_VERSION, timestamp := now, lastFetched := now,
               commitSha := commitSha, path := path, files := files, folders := folders,
               repoName := repoName } ∧
     (setCachedData st now repoName path commitSha files folders true).lsData = st.lsData ∧
     (setCachedData st now repoName path commitSha files folders true).lsCommit = st.lsCommit ∧
     (setCachedData st now repoName path commitSha files folders true).commitCache
       = st.commitCache) := by
  constructor
  · unfold getCachedData
    dsimp only
    rw [hmem]
    unfold getCachedDataDurable
    rw [hcorrupt]
  · refine ⟨?_, rfl, rfl, rfl⟩
    unfold setCachedData
    simp only [if_pos rfl]
    exact lookupKV_insertKV_self _ _ _

/-- Witness for C9: an empty volatile map over a corrupt durable value. -/
theorem c9_durable_failure_swallowed_witness :
    lookupKV stC9.memoryCache (getCacheKey "r" "") = none ∧
    lookupKV stC9.lsData (getCacheKey "r" "") = some none ∧
    (getCachedData stC9 7 "r" "" = (none, stC9) ∧
     (lookupKV (setCachedData stC9 7 "r" "" "abc" [] [] true).memoryCache (getCacheKey "r" "")
        = some { version := CACHE_VERSION, timestamp := 7, lastFetched := 7,
                 commitSha := "abc", path := "", files := [], folders := [],
                 repoName := "r" } ∧
      (setCachedData stC9 7 "r" "" "abc" [] [] true).lsData = stC9.lsData ∧
      (setCachedData stC9 7 "r" "" "abc" [] [] true).lsCommit = stC9.lsCommit ∧
      (setCachedData stC9 7 "r" "" "abc" [] [] true).commitCache = stC9.commitCache)) :=
  ⟨by decide, by decide,
   c9_durable_failure_swallowed stC9 7 "r" "" "abc" [] [] (by decide) (by decide)⟩

/-! ### Claim C1 -/

/-- C1 counterexample: when the stored token and the freshly resolved token are
the *same placeholder string* (possible whenever both were synthesised in the
same wall-clock millisecond), `loadContents` serves the cached entry unchanged
— the hit test compares the strings only and never checks the token flavor,
contradicting the claim that a placeholder flavor always forces a miss. -/
theorem c1_counterexample :
    strStartsWith "empty-repo-5" "empty-repo-" = true ∧
    getLatestCommitSha apiEmptyRepo "r" 5 = some "empty-repo-5" ∧
    (getCachedCommitSha stC1 5 "r").1 = some "empty-repo-5" ∧
    loadContents apiEmptyRepo stC1 5 "r" "" = (.cacheHit [fileC1] [], stC1) := by
  refine ⟨by decide, by decide, by decide, by decide⟩

/-- C1 amended: after the Commit Oracle resolves `tok`, `loadContents` serves
the cached entry unchanged iff the stored token is the *same nonempty string*
as `tok` (no flavor check) and a cached entry exists; on a string mismatch, or
when no entry exists under an equal token, it performs a fresh listing fetch
and, when that fetch succeeds, stores the listing under `tok`.  Placeholder
tokens resolved at distinct milliseconds are distinct strings, so they still
miss — only same-millisecond placeholder collisions deviate from the original
claim. -/
theorem c1_amended_hit_iff_token_equal (api : Api) (st : Store) (now : Nat)
    (repoName path tok : String)
    (hres : getLatestCommitSha api repoName now = some tok) :
    (∀ st1 cd st2,
       getCachedCommitSha st now repoName = (some tok, st1) → tok ≠ "" →
       getCachedData st1 now repoName path = (some cd, st2) →
       loadContents api st now repoName path = (.cacheHit cd.files cd.folders, st2)) ∧
    (∀ st1 st2,
       getCachedCommitSha st now repoName = (some tok, st1) →
       getCachedData st1 now repoName path = (none, st2) →
       ∃ listing st', loadContents api st now repoName path
         = (.fetchedFresh tok listing, st')) ∧
    (∀ stored st1,
       getCachedCommitSha st now repoName = (stored, st1) → stored ≠ some tok →
       ∃ listing st',
         loadContents api st now repoName path = (.fetchedFresh tok listing, st') ∧
         ∀ files folders, listing = some (files, folders) →
           lookupKV st'.memoryCache (getCacheKey repoName path)
             = some { version := CACHE_VERSION, timestamp := now, lastFetched := now,
                      commitSha := tok, path := path, files := files, folders := folders,
                      repoName := repoName }) := by
  refine ⟨?_, ?_, ?_⟩
  · intro st1 cd st2 hcs htok hcd
    unfold loadContents
    rw [hres]
    dsimp only
    rw [hcs]
    dsimp only
    rw [if_pos ⟨htok, rfl⟩, hcd]
  · intro st1 st2 hcs hcd
    unfold loadContents
    rw [hres]
    dsimp only
    rw [hcs]
    dsimp only
    by_cases hcond : tok ≠ "" ∧ tok = tok
    · rw [if_pos hcond, hcd]
      cases hdl : loadContentsDirectly api path with
      | some listing =>
        rcases listing with ⟨files, folders⟩
        exact ⟨_, _, rfl⟩
      | none => exact ⟨_, _, rfl⟩
    · rw [if_neg hcond]
      cases hdl : loadContentsDirectly api path with
      | some listing =>
        rcases listing with ⟨files, folders⟩
        exact ⟨_, _, rfl⟩
      | none => exact ⟨_, _, rfl⟩
  · intro stored st1 hcs hne
    unfold loadContents
    rw [hres]
    dsimp only
    rw [hcs]
    dsimp only
    cases stored with
    | none =>
      cases hdl : loadContentsDirectly api path with
      | some listing =>
        rcases listing with ⟨files, folders⟩
        refine ⟨some (files, folders), _, rfl, ?_⟩
        intro files' folders' hlist
        obtain ⟨rfl, rfl⟩ : files = files' ∧ folders = folders' := by
          simpa using hlist
        unfold setCachedData
        dsimp only
        rw [if_neg (by simp)]
        exact lookupKV_insertKV_self _ _ _
      | none =>
        refine ⟨none, _, rfl, ?_⟩
        intro files' folders' hlist
        simp at hlist
    | some s =>
      have hs : ¬ (s ≠ "" ∧ s = tok) := by
        rintro ⟨-, rfl⟩
        exact hne rfl
      dsimp only
      rw [if_neg hs]
      cases hdl : loadContentsDirectly api path with
      | some listing =>
        rcases listing with ⟨files, folders⟩
        refine ⟨some (files, folders), _, rfl, ?_⟩
        intro files' folders' hlist
        obtain ⟨rfl, rfl⟩ : files = files' ∧ folders = folders' := by
          simpa using hlist
        unfold setCachedData
        dsimp only
        rw [if_neg (by simp)]
        exact lookupKV_insertKV_self _ _ _
      | none =>
        refine ⟨none, _, rfl, ?_⟩
        intro files' folders' hlist
        simp at hlist

/-- Witness for C1's amended theorem: an uncached repository (`stored = none`)
with a resolvable token, taking the fetch-and-store path. -/
theorem c1_amended_hit_iff_token_equal_witness :
    getLatestCommitSha apiC7 "r" 0 = some "abc" ∧
    ((∀ st1 cd st2,
        getCachedCommitSha stEmpty 0 "r" = (some "abc", st1) → "abc" ≠ "" →
        getCachedData st1 0 "r" "" = (some cd, st2) →
        loadContents apiC7 stEmpty 0 "r" "" = (.cacheHit cd.files cd.folders, st2)) ∧
     (∀ st1 st2,
        getCachedCommitSha stEmpty 0 "r" = (some "abc", st1) →
        getCachedData st1 0 "r" "" = (none, st2) →
        ∃ listing st', loadContents apiC7 stEmpty 0 "r" ""
          = (.fetchedFresh "abc" listing, st')) ∧
     (∀ stored st1,
        getCachedCommitSha stEmpty 0 "r" = (stored, st1) → stored ≠ some "abc" →
        ∃ listing st',
          loadContents apiC7 stEmpty 0 "r" "" = (.fetchedFresh "abc" listing, st') ∧
          ∀ files folders, listing = some (files, folders) →
            lookupKV st'.memoryCache (getCacheKey "r" "")
              = some { version := CACHE_VERSION, timestamp := 0, lastFetched := 0,
                       commitSha := "abc", path := "", files := files, folders := folders,
                       repoName := "r" })) :=
  ⟨by decide, c1_amended_hit_iff_token_equal apiC7 stEmpty 0 "r" "" "abc" (by decide)⟩

/-! ### Claim C3 -/

theorem getCachedDataDurable_sound (st1 : Store) (now : Nat) (cacheKey : String)
    (e : CacheEntry) (st2 : Store)
    (h : getCachedDataDurable st1 now cacheKey = (some e, st2)) :
    e.version = CACHE_VERSION ∧ now - e.timestamp ≤ MAX_CACHE_AGE := by
  unfold getCachedDataDurable at h
  cases hl : lookupKV st1.lsData cacheKey with
  | none => rw [hl] at h; simp at h
  | some v =>
    cases v with
    | none => rw [hl] at h; simp at h
    | some pc =>
      rw [hl] at h
      dsimp only at h
      by_cases hv : pc.version ≠ CACHE_VERSION
      · rw [if_pos hv] at h; simp at h
      · rw [if_neg hv] at h
        by_cases ha : now - pc.timestamp > MAX_CACHE_AGE
        · rw [if_pos ha] at h; simp at h
        · rw [if_neg ha] at h
          have he : pc = e := by
            have := congrArg Prod.fst h
            simpa using this
          subst he
          exact ⟨not_ne_iff.mp hv, Nat.le_of_not_lt ha⟩

theorem getCachedCommitShaDurable_sound (st1 : Store) (now : Nat) (repoName : String)
    (sha : String) (st2 : Store)
    (h : getCachedCommitShaDurable st1 now repoName = (some sha, st2)) :
    ∃ ce, lookupKV st1.lsCommit (getCommitCacheKey repoName) = some (some ce) ∧
      now - ce.timestamp ≤ MAX_CACHE_AGE ∧ sha = ce.commitSha := by
  unfold getCachedCommitShaDurable at h
  dsimp only at h
  cases hl : lookupKV st1.lsCommit (getCommitCacheKey repoName) with
  | none => rw [hl] at h; simp at h
  | some v =>
    cases v with
    | none => rw [hl] at h; simp at h
    | some pc =>
      rw [hl] at h
      dsimp only at h
      by_cases ha : now - pc.timestamp > MAX_CACHE_AGE
      · rw [if_pos ha] at h; simp at h
      · rw [if_neg ha] at h
        have he : pc.commitSha = sha := by
          have := congrArg Prod.fst h
          simpa using this
        exact ⟨pc, rfl, Nat.le_of_not_lt ha, he.symm⟩

/-- C3 amended: a listing entry is returned by `getCachedData` only when its
format version matches and its age is at most `MAX_CACHE_AGE` (strictly below
on the volatile tier, *at most* on the durable tier, so an entry exactly 24h
old is still served from the durable tier); a commit token is returned only
when backed either by a fresh version-checked volatile record or by a durable
record checked for age alone — the durable commit fallback performs no version
comparison.  Entries 25 hours old are treated as absent and removed from both
tiers of the store on the access that discovers them. -/
theorem c3_amended_validity :
    (∀ (st : Store) (now : Nat) (repoName path : String) (e : CacheEntry) (st2 : Store),
       getCachedData st now repoName path = (some e, st2) →
       e.version = CACHE_VERSION ∧ now - e.timestamp ≤ MAX_CACHE_AGE) ∧
    (∀ (st : Store) (ts : Nat) (repoName path : String) (e e' : CacheEntry),
       lookupKV st.memoryCache (getCacheKey repoName path) = some e →
       lookupKV st.lsData (getCacheKey repoName path) = some (some e') →
       e.timestamp = ts → e'.timestamp = ts →
       ∃ st2, getCachedData st (ts + twentyFiveHours) repoName path = (none, st2) ∧
         lookupKV st2.memoryCache (getCacheKey repoName path) = none ∧
         lookupKV st2.lsData (getCacheKey repoName path) = none) ∧
    (∀ (st : Store) (now : Nat) (repoName : String),
       ((getCachedCommitSha st now repoName).1).isSome = true →
       (∃ ce, lookupKV st.commitCache repoName = some ce ∧
          ce.version = CACHE_VERSION ∧ now - ce.timestamp < MAX_CACHE_AGE ∧
          (getCachedCommitSha st now repoName).1 = some ce.commitSha) ∨
       (∃ ce, lookupKV st.lsCommit (getCommitCacheKey repoName) = some (some ce) ∧
          now - ce.timestamp ≤ MAX_CACHE_AGE ∧
          (getCachedCommitSha st now repoName).1 = some ce.commitSha)) ∧
    (∀ (st : Store) (ts : Nat) (repoName : String) (ce ce' : CommitEntry),
       lookupKV st.commitCache repoName = some ce →
       lookupKV st.lsCommit (getCommitCacheKey repoName) = some (some ce') →
       ce.timestamp = ts → ce'.timestamp = ts →
       ∃ st2, getCachedCommitSha st (ts + twentyFiveHours) repoName = (none, st2) ∧
         lookupKV st2.commitCache repoName = none ∧
         lookupKV st2.lsCommit (getCommitCacheKey repoName) = none) := by
  refine ⟨?_, ?_, ?_, ?_⟩
  · intro st now repoName path e st2 h
    unfold getCachedData at h
    dsimp only at h
    cases hm : lookupKV st.memoryCache (getCacheKey repoName path) with
    | some mc =>
      rw [hm] at h
      dsimp only at h
      by_cases hv : mc.version = CACHE_VERSION ∧ now - mc.timestamp < MAX_CACHE_AGE
      · rw [if_pos hv] at h
        have he : mc = e := by
          have := congrArg Prod.fst h
          simpa using this
        subst he
        exact ⟨hv.1, Nat.le_of_lt hv.2⟩
      · rw [if_neg hv] at h
        exact getCachedDataDurable_sound _ _ _ _ _ h
    | none =>
      rw [hm] at h
      exact getCachedDataDurable_sound _ _ _ _ _ h
  · intro st ts repoName path e e' hm hd het het'
    have hstale : ¬ (e.version = CACHE_VERSION ∧
        ts + twentyFiveHours - e.timestamp < MAX_CACHE_AGE) := by
      rintro ⟨-, hlt⟩
      rw [het] at hlt
      unfold twentyFiveHours MAX_CACHE_AGE at hlt
      omega
    have hstale' : ts + twentyFiveHours - e'.timestamp > MAX_CACHE_AGE := by
      rw [het']
      unfold twentyFiveHours MAX_CACHE_AGE
      omega
    refine ⟨evictData st (getCacheKey repoName path), ?_, ?_, ?_⟩
    · unfold getCachedData evictData
      dsimp only
      rw [hm]
      dsimp only
      rw [if_neg hstale]
      unfold getCachedDataDurable
      dsimp only
      rw [hd]
      dsimp only
      by_cases hv : e'.version ≠ CACHE_VERSION
      · rw [if_pos hv]
      · rw [if_neg hv, if_pos hstale']
    · exact lookupKV_removeKV_self _ _
    · exact lookupKV_removeKV_self _ _
  · intro st now repoName hsome
    unfold getCachedCommitSha at hsome ⊢
    cases hm : lookupKV st.commitCache repoName with
    | some mc =>
      rw [hm] at hsome
      dsimp only at hsome ⊢
      by_cases hv : mc.version = CACHE_VERSION ∧ now - mc.timestamp < MAX_CACHE_AGE
      · rw [if_pos hv] at hsome ⊢
        exact Or.inl ⟨mc, rfl, hv.1, hv.2, rfl⟩
      · rw [if_neg hv] at hsome ⊢
        rcases hg : getCachedCommitShaDurable
            { st with commitCache := removeKV st.commitCache repoName } now repoName
          with ⟨r, st2⟩
        rw [hg] at hsome
        cases r with
        | none => simp at hsome
        | some sha =>
          rcases getCachedCommitShaDurable_sound _ _ _ _ _ hg with ⟨ce, hce, hage, hsha⟩
          exact Or.inr ⟨ce, hce, hage, by simp [hsha]⟩
    | none =>
      rw [hm] at hsome
      dsimp only at hsome ⊢
      rcases hg : getCachedCommitShaDurable st now repoName with ⟨r, st2⟩
      rw [hg] at hsome
      cases r with
      | none => simp at hsome
      | some sha =>
        rcases getCachedCommitShaDurable_sound _ _ _ _ _ hg with ⟨ce, hce, hage, hsha⟩
        exact Or.inr ⟨ce, hce, hage, by simp [hsha]⟩
  · intro st ts repoName ce ce' hm hd het het'
    have hstale : ¬ (ce.version = CACHE_VERSION ∧
        ts + twentyFiveHours - ce.timestamp < MAX_CACHE_AGE) := by
      rintro ⟨-, hlt⟩
      rw [het] at hlt
      unfold twentyFiveHours MAX_CACHE_AGE at hlt
      omega
    have hstale' : ts + twentyFiveHours - ce'.timestamp > MAX_CACHE_AGE := by
      rw [het']
      unfold twentyFiveHours MAX_CACHE_AGE
      omega
    refine ⟨evictCommit st repoName, ?_, ?_, ?_⟩
    · unfold getCachedCommitSha evictCommit
      rw [hm]
      dsimp only
      rw [if_neg hstale]
      unfold getCachedCommitShaDurable
      dsimp only
      rw [hd]
      dsimp only
      rw [if_pos hstale']
    · exact lookupKV_removeKV_self _ _
    · exact lookupKV_removeKV_self _ _

/-- C3 counterexample: (a) a durable commit record whose stored format version
`0.9` differs from the schema version is nevertheless returned by
`getCachedCommitSha` (its durable fallback checks age only); (b) a durable
listing entry whose age is exactly the 24-hour maximum — hence not "under" it
— is nevertheless returned by `getCachedData` (the durable age test uses a
strict `>`). -/
theorem c3_counterexample :
    (getCachedCommitSha stC3 1000 "r").1 = some "abc" ∧
    lookupKV stC3.lsCommit (getCommitCacheKey "r")
      = some (some { version := "0.9", timestamp := 1000, commitSha := "abc" }) ∧
    ("0.9" : String) ≠ CACHE_VERSION ∧
    (getCachedData stC3b MAX_CACHE_AGE "r" "").1.isSome = true ∧
    ¬ (MAX_CACHE_AGE - (0 : Nat) < MAX_CACHE_AGE) := by
  refine ⟨by decide, by decide, by decide, by decide, by decide⟩

/-- Witness for C3's amended theorem: the 25-hours-stale entry of `stOld` is
reported absent and evicted from both tiers. -/
theorem c3_amended_validity_witness :
    lookupKV stOld.memoryCache (getCacheKey "r" "") = some entryOld ∧
    lookupKV stOld.lsData (getCacheKey "r" "") = some (some entryOld) ∧
    entryOld.timestamp = 0 ∧
    (∃ st2, getCachedData stOld (0 + twentyFiveHours) "r" "" = (none, st2) ∧
       lookupKV st2.memoryCache (getCacheKey "r" "") = none ∧
       lookupKV st2.lsData (getCacheKey "r" "") = none) :=
  ⟨by decide, by decide, by decide,
   c3_amended_validity.2.1 stOld 0 "r" "" entryOld entryOld
     (by decide) (by decide) (by decide) (by decide)⟩

/-! ### Claim C5 -/

theorem applyOneChange_not_child (path : String) (acc : List FileEntry × List FolderEntry)
    (change : Change) (h : ¬ isDirectChild path change.filename) :
    applyOneChange path acc change = acc := by
  unfold applyOneChange
  by_cases h1 : path ≠ "" ∧ ¬ strStartsWith change.filename (pathPreOf path) = true
  · rw [if_pos h1]
  · rw [if_neg h1]
    dsimp only
    have hA : path = "" ∨ strStartsWith change.filename (pathPreOf path) = true := by
      by_cases hp : path = ""
      · exact Or.inl hp
      · right
        by_contra hnb
        exact h1 ⟨hp, hnb⟩
    have hB : strIncludes (relativeOf path change.filename) "/" = true := by
      by_contra hnB
      rw [Bool.not_eq_true] at hnB
      exact h ⟨hA, hnB⟩
    rw [if_pos hB]

theorem removeFirstFile_name_ne (files : List FileEntry) (name : String)
    (h : (files.map FileEntry.name).Nodup) :
    ∀ g ∈ removeFirstFile files name, g.name ≠ name := by
  induction files with
  | nil => intro g hg; simp [removeFirstFile] at hg
  | cons f fs ih =>
    rw [List.map_cons] at h
    have hcons := List.nodup_cons.mp h
    intro g hg
    rw [removeFirstFile] at hg
    by_cases hf : f.name = name
    · rw [if_pos hf] at hg
      intro hgname
      exact hcons.1 (hf ▸ hgname ▸ List.mem_map_of_mem FileEntry.name hg)
    · rw [if_neg hf] at hg
      rcases List.mem_cons.mp hg with rfl | hg'
      · exact hf
      · exact ih hcons.2 g hg'

/-- C5: `applyChangesToCache` patches only direct children of the cache path —
a change set with no direct child leaves both lists unchanged; an
`added`/`modified` direct child replaces the first same-named file with a
reconstructed entry whose size is `additions + deletions` (and, when file
names are unique, no other entry with that name remains); a `removed` direct
child drops the name-matching file and folder; the claim's concrete
`{a.txt, b.txt}` example patches to `{a.txt}`. -/
theorem c5_diff_patch (path : String) (change : Change)
    (files : List FileEntry) (folders : List FolderEntry) :
    (∀ changes : CompareData, (∀ c ∈ changes.files, ¬ isDirectChild path c.filename) →
       applyChangesToCache path changes files folders = (files, folders)) ∧
    (isDirectChild path change.filename →
       change.status = "added" ∨ change.status = "modified" →
       applyChangesToCache path { files := [change], commits := [] } files folders
         = (removeFirstFile files (lastSegment change.filename) ++
             [{ id := change.sha, name := lastSegment change.filename,
                size := change.additions + change.deletions,
                path := change.filename, sha := change.sha }], folders)) ∧
    (isDirectChild path change.filename → change.status = "removed" →
       applyChangesToCache path { files := [change], commits := [] } files folders
         = (removeFirstFile files (relativeOf path change.filename),
            removeFirstFolder folders (relativeOf path change.filename))) ∧
    ((files.map FileEntry.name).Nodup →
       ∀ name, ∀ g ∈ removeFirstFile files name, g.name ≠ name) ∧
    applyChangesToCache "dir" { files := [changeRemove], commits := [] } [fileA, fileB] []
      = ([fileA], []) := by
  refine ⟨?_, ?_, ?_, ?_, by decide⟩
  · intro changes hall
    unfold applyChangesToCache
    have hgen : ∀ (l : List Change) (acc : List FileEntry × List FolderEntry),
        (∀ c ∈ l, ¬ isDirectChild path c.filename) →
        l.foldl (applyOneChange path) acc = acc := by
      intro l
      induction l with
      | nil => intro acc _; rfl
      | cons c cs ih =>
        intro acc hl
        rw [List.foldl_cons,
          applyOneChange_not_child path acc c (hl c (List.mem_cons_self c cs))]
        exact ih acc (fun c' hc' => hl c' (List.mem_cons_of_mem c hc'))
    exact hgen changes.files (files, folders) hall
  · intro hchild hstatus
    have hnotskip : ¬ (path ≠ "" ∧ ¬ strStartsWith change.filename (pathPreOf path) = true) := by
      rintro ⟨hp, hnb⟩
      rcases hchild.1 with h0 | h0
      · exact hp h0
      · exact hnb h0
    have hsplit : strSplit (relativeOf path change.filename) '/'
        = [relativeOf path change.filename] :=
      strSplit_no_slash _ hchild.2
    unfold applyChangesToCache
    rw [List.foldl_cons, List.foldl_nil]
    unfold applyOneChange
    rw [if_neg hnotskip]
    dsimp only
    rw [if_neg (by simp [hchild.2]), if_pos hstatus, if_pos (by rw [hsplit]; rfl)]
    unfold updateFileInCache
    rfl
  · intro hchild hstatus
    have hnotskip : ¬ (path ≠ "" ∧ ¬ strStartsWith change.filename (pathPreOf path) = true) := by
      rintro ⟨hp, hnb⟩
      rcases hchild.1 with h0 | h0
      · exact hp h0
      · exact hnb h0
    unfold applyChangesToCache
    rw [List.foldl_cons, List.foldl_nil]
    unfold applyOneChange
    rw [if_neg hnotskip]
    dsimp only
    rw [if_neg (by simp [hchild.2]), if_neg (by simp [hstatus]), if_pos hstatus]
    unfold removeFileFromCache
    rw [lastSegment_no_slash _ hchild.2]
  · intro hnodup name
    exact removeFirstFile_name_ne files name hnodup

/-- Witness for C5 at concrete inputs: an added `dir/c.txt` patched into a
listing holding `a.txt` under cache path `dir`. -/
theorem c5_diff_patch_witness :
    ((∀ c ∈ ([] : List Change), ¬ isDirectChild "dir" c.filename) ∧
     isDirectChild "dir" changeAdd.filename ∧
     (changeAdd.status = "added" ∨ changeAdd.status = "modified") ∧
     (([fileA].map FileEntry.name).Nodup)) ∧
    applyChangesToCache "dir" { files := [changeAdd], commits := [] } [fileA] []
      = (removeFirstFile [fileA] (lastSegment changeAdd.filename) ++
          [{ id := changeAdd.sha, name := lastSegment changeAdd.filename,
             size := changeAdd.additions + changeAdd.deletions,
             path := changeAdd.filename, sha := changeAdd.sha }], []) :=
  ⟨⟨by decide, by decide, by decide, by decide⟩,
   (c5_diff_patch "dir" changeAdd [fileA] []).2.1 (by decide) (by decide)⟩

/-! ### Claim C7 -/

theorem charListLe_total : ∀ as bs : List Char,
    charListLe as bs = true ∨ charListLe bs as = true := by
  intro as
  induction as with
  | nil => intro bs; exact Or.inl rfl
  | cons a as ih =>
    intro bs
    cases bs with
    | nil => exact Or.inr rfl
    | cons b bs =>
      by_cases hab : a < b
      · left; simp [charListLe, hab]
      · by_cases hba : b < a
        · right; simp [charListLe, hba]
        · rcases ih bs with h | h
          · left; simp [charListLe, hab, hba, h]
          · right; simp [charListLe, hab, hba, h]

theorem charListLe_trans : ∀ as bs cs : List Char,
    charListLe as bs = true → charListLe bs cs = true → charListLe as cs = true := by
  intro as
  induction as with
  | nil => intro bs cs _ _; rfl
  | cons a as ih =>
    intro bs cs h1 h2
    cases bs with
    | nil => simp [charListLe] at h1
    | cons b bs =>
      cases cs with
      | nil => simp [charListLe] at h2
      | cons c cs =>
        simp only [charListLe] at h1 h2 ⊢
        by_cases hba : b < a
        · rw [if_neg (asymm hba), if_pos hba] at h1
          exact absurd h1 (by simp)
        by_cases hcb : c < b
        · rw [if_neg (asymm hcb), if_pos hcb] at h2
          exact absurd h2 (by simp)
        by_cases hab : a < b
        · by_cases hbc : b < c
          · rw [if_pos (lt_trans hab hbc)]
          · have hbceq : b = c := le_antisymm (not_lt.mp hcb) (not_lt.mp hbc)
            subst hbceq
            rw [if_pos hab]
        · have habeq : a = b := le_antisymm (not_lt.mp hba) (not_lt.mp hab)
          subst habeq
          by_cases hac : a < c
          · rw [if_pos hac]
          · have haceq : a = c := le_antisymm (not_lt.mp hcb) (not_lt.mp hac)
            subst haceq
            rw [if_neg hac, if_neg hac] at h1 h2 ⊢
            exact ih _ _ h1 h2

theorem strLe_trans {a b c : String} (h1 : strLe a b) (h2 : strLe b c) : strLe a c :=
  charListLe_trans _ _ _ h1 h2

theorem hitOrder_total (a b : SearchHit) : hitOrder a b ∨ hitOrder b a := by
  unfold hitOrder
  rcases Nat.lt_trichotomy a.matchScore b.matchScore with h | h | h
  · exact Or.inr (Or.inl h)
  · rcases Nat.lt_trichotomy (hitDepth a) (hitDepth b) with h2 | h2 | h2
    · exact Or.inl (Or.inr ⟨h, Or.inl h2⟩)
    · rcases charListLe_total a.fullPath.data b.fullPath.data with h3 | h3
      · exact Or.inl (Or.inr ⟨h, Or.inr ⟨h2, h3⟩⟩)
      · exact Or.inr (Or.inr ⟨h.symm, Or.inr ⟨h2.symm, h3⟩⟩)
    · exact Or.inr (Or.inr ⟨h.symm, Or.inl h2⟩)
  · exact Or.inl (Or.inl h)

theorem hitOrder_trans (a b c : SearchHit) (hab : hitOrder a b) (hbc : hitOrder b c) :
    hitOrder a c := by
  unfold hitOrder at hab hbc ⊢
  rcases hab with h1 | ⟨e1, hd1⟩
  · rcases hbc with h2 | ⟨e2, -⟩
    · exact Or.inl (by omega)
    · exact Or.inl (by omega)
  · rcases hbc with h2 | ⟨e2, hd2⟩
    · exact Or.inl (by omega)
    · refine Or.inr ⟨by omega, ?_⟩
      rcases hd1 with d1 | ⟨de1, p1⟩
      · rcases hd2 with d2 | ⟨de2, -⟩
        · exact Or.inl (by omega)
        · exact Or.inl (by omega)
      · rcases hd2 with d2 | ⟨de2, p2⟩
        · exact Or.inl (by omega)
        · exact Or.inr ⟨by omega, strLe_trans p1 p2⟩

theorem finishSearch_sorted (l : List SearchHit) (n : Nat) :
    List.Sorted hitOrder (finishSearch l n) := by
  haveI : IsTotal SearchHit hitOrder := ⟨hitOrder_total⟩
  haveI : IsTrans SearchHit hitOrder := ⟨hitOrder_trans⟩
  exact List.Pairwise.sublist (List.take_sublist n _)
    (List.sorted_insertionSort hitOrder l)

theorem finishSearch_length (l : List SearchHit) (n : Nat) :
    (finishSearch l n).length ≤ n := by
  unfold finishSearch
  exact List.length_take_le n (List.insertionSort hitOrder l)

/-- C7 counterexample: the enhanced search's on-demand fetch cascade is gated
and cut off by `maxResults` *before* sorting, so truncation does affect which
items are considered: with `maxResults = 1` the already-cached weak hit stops
the cascade and is returned, while with `maxResults = 2` the fetched `docs`
folder contributes a strictly higher-scoring hit that sorts first — the
`maxResults = 1` output is not the 1-element truncation of the
`maxResults = 2` ranking. -/
theorem c7_counterexample :
    (searchCachedDataEnhanced apiC7 stC7 0 "r" "report" { maxResults := some 1 }).1
      = [hitWeak] ∧
    (searchCachedDataEnhanced apiC7 stC7 0 "r" "report" { maxResults := some 2 }).1
      = [hitStrong, hitWeak] ∧
    hitWeak.matchScore < hitStrong.matchScore ∧
    (searchCachedDataEnhanced apiC7 stC7 0 "r" "report" { maxResults := some 1 }).1
      ≠ ((searchCachedDataEnhanced apiC7 stC7 0 "r" "report" { maxResults := some 2 }).1).take 1 := by
  refine ⟨by decide, by decide, by decide, by decide⟩

/-- C7 amended: both search forms sort the gathered hits with the comparator
order (score descending, then ascending full-path segment count, then
lexicographic full path) and truncate to `maxResults` (default 100
synchronous, 200 enhanced) only after sorting.  For the synchronous form
truncation never affects which items are considered: the output is a prefix of
a sorted permutation of the full gathered candidate list.  For the enhanced
form the output is still sorted and bounded by `maxResults`, but the
on-demand fetch cascade is additionally gated and cut off once `maxResults`
hits have accumulated, so `maxResults` can affect which items are considered
at all. -/
theorem c7_amended_ranking :
    (∀ (st : Store) (now : Nat) (repoName searchTerm : String) (opts : SearchOptions),
       List.Sorted hitOrder (searchCachedData st now repoName searchTerm opts).1 ∧
       ∃ l, l.Perm (gatherHits st now repoName searchTerm (opts.includeFiles.getD true)
              (opts.includeFolders.getD true) (opts.caseSensitive.getD false)).1 ∧
         List.Sorted hitOrder l ∧
         (searchCachedData st now repoName searchTerm opts).1
           = l.take (opts.maxResults.getD 100)) ∧
    (∀ (api : Api) (st : Store) (now : Nat) (repoName searchTerm : String)
       (opts : SearchOptions),
       List.Sorted hitOrder (searchCachedDataEnhanced api st now repoName searchTerm opts).1 ∧
       (searchCachedDataEnhanced api st now repoName searchTerm opts).1.length
         ≤ opts.maxResults.getD 200) := by
  constructor
  · intro st now repoName searchTerm opts
    unfold searchCachedData
    dsimp only
    rcases hg : gatherHits st now repoName searchTerm (opts.includeFiles.getD true)
        (opts.includeFolders.getD true) (opts.caseSensitive.getD false) with ⟨results, st1⟩
    dsimp only
    haveI : IsTotal SearchHit hitOrder := ⟨hitOrder_total⟩
    haveI : IsTrans SearchHit hitOrder := ⟨hitOrder_trans⟩
    refine ⟨finishSearch_sorted _ _, List.insertionSort hitOrder results, ?_, ?_, rfl⟩
    · exact List.perm_insertionSort hitOrder results
    · exact List.sorted_insertionSort hitOrder results
  · intro api st now repoName searchTerm opts
    unfold searchCachedDataEnhanced
    dsimp only
    rcases hs : searchCachedData st now repoName searchTerm opts with ⟨cachedResults, st1⟩
    dsimp only
    by_cases hcond : jsTrim searchTerm ≠ "" ∧ cachedResults.length < opts.maxResults.getD 200
    · rw [if_pos hcond]
      exact ⟨finishSearch_sorted _ _, finishSearch_length _ _⟩
    · rw [if_neg hcond]
      exact ⟨finishSearch_sorted _ _, finishSearch_length _ _⟩

end Drive
